import Mathlib

set_option maxRecDepth 8192

/-!
Shallow embedding of the OLED text-rendering driver (`oled.cpp` / `oled.h`)
of the Tuna-Tin-S repository, together with theorems checking the
natural-language specification against it.

Bus traffic is modelled as a trace of events; every driver operation is a
function from driver state to (new state, emitted events).  All machine
integers are `Nat` with explicit `% 256` (`u8`) where the C code stores
into a `uint8_t`.
-/

namespace TunaTinS

/-- One I2C transaction emitted by the driver: a command-channel write of a
byte list, a single data byte (`senddata`), or a run of `n` zero data bytes
(`sendzeros` / `i2c.writezeros`). -/
inductive Ev where
  | cmd (bs : List Nat)
  | dat (b : Nat)
  | zeros (n : Nat)
deriving DecidableEq, Repr

/-- The driver's mutable member state: logical cursor `m_col`/`m_row`,
physical position `oledX`/`oledY`, and the stretched-glyph buffers
`fx0`/`fx1` (the `uint8_t fx0[10]`, `fx1[10]` members, modelled as
functions from index to byte). -/
structure St where
  m_col : Nat
  m_row : Nat
  oledX : Nat
  oledY : Nat
  fx0 : Nat → Nat
  fx1 : Nat → Nat

/-- Modelled from the spec: the constants `FONT_W`, `FONT_H` and the font
table `font[]` live in `font.h`, which is not part of the sources given;
the spec describes them as a fixed glyph width, a fixed row-height factor
and a read-only flat byte table indexed by `(charCode - 32) * FONT_W + i`.
They are kept as parameters, so every theorem quantifying over `Cfg`
holds for any choice of these constants. -/
structure Cfg where
  fontW : Nat
  fontH : Nat
  font : Nat → Nat

/-- Truncation to a `uint8_t` value. -/
def u8 (n : Nat) : Nat := n % 256

/-- The value of the C expression `a - b` (int arithmetic, `a ≤ 384`,
`b ≤ 255`) when passed to a `uint8_t` parameter. -/
def sub8 (a b : Nat) : Nat := ((a + 256) - b) % 256

/-- Sequencing of trace-emitting operations: run `f` on the state of `a`
and append its emitted events. -/
def seq (a : St × List Ev) (f : St → St × List Ev) : St × List Ev :=
  let r := f a.1
  (r.1, a.2 ++ r.2)

/-- `OLED::senddata`: emit one data byte. -/
def senddata (b : Nat) (s : St) : St × List Ev :=
  (s, [Ev.dat (u8 b)])

/-- `OLED::sendzeros`: emit a run of `nbytes` zero data bytes. -/
def sendzeros (nbytes : Nat) (s : St) : St × List Ev :=
  (s, [Ev.zeros (u8 nbytes)])

/-- `OLED::setPage`: emit the 3-byte addressing command
`(OLED_PAGE | y), (0x10 | ((x & 0xf0) >> 4)), (x & 0x0f)`. -/
def setPage (x y : Nat) (s : St) : St × List Ev :=
  let x := u8 x
  let y := u8 y
  (s, [Ev.cmd [0xB0 ||| y, 0x10 ||| ((x &&& 0xF0) >>> 4), x &&& 0x0F]])

/-- `OLED::setCursor`: store the logical position, derive
`oledX = col*FONT_W` and `oledY = ((row*FONT_H) & 0x06) | 0x01`, and
issue the page-address command via `setPage`. -/
def setCursor (cfg : Cfg) (col row : Nat) (s : St) : St × List Ev :=
  let col := u8 col
  let row := u8 row
  let s := { s with
    m_row := row
    m_col := col
    oledX := u8 (col * cfg.fontW)
    oledY := ((row * cfg.fontH) &&& 0x06) ||| 0x01 }
  setPage s.oledX s.oledY s

/-- `OLED::setXY`: store `oledX = col`, mask `oledY &= 0x06` (the `row`
argument is never read), and issue the page-address command. -/
def setXY (col row : Nat) (s : St) : St × List Ev :=
  let col := u8 col
  let s := { s with oledX := col, oledY := s.oledY &&& 0x06 }
  setPage s.oledX s.oledY s

/-- `OLED::clr2eol`: zero-fill from the current column to the screen edge
on the current page, re-address via `setXY (oledX, oledY+1)`, and
zero-fill the same span again. -/
def clr2eol (s : St) : St × List Ev :=
  let a := sendzeros (sub8 128 s.oledX) s
  let b := seq a (setXY a.1.oledX (a.1.oledY + 1))
  seq b (sendzeros (sub8 128 b.1.oledX))

/-- `OLED::clrScreen`: home the cursor, zero-fill the home page, then
zero-fill pages `oledY+1 .. oledY+7`, and home the cursor again. -/
def clrScreen (cfg : Cfg) (s : St) : St × List Ev :=
  let a := setCursor cfg 0 0 s
  let b := seq a (sendzeros 128)
  let c := (List.range 7).foldl
    (fun acc k =>
      seq (seq acc (fun s => setPage s.oledX (s.oledY + (k + 1)) s)) (sendzeros 128))
    b
  seq c (setCursor cfg 0 0)

/-- One pass of the stretch loop in `OLED::lookup`: starting from test
mask `mk1init` (`0x01` for the low half, `0x10` for the high half) and
output mask `0x03`, four iterations double each set source bit into a
2-bit pair of the accumulator. -/
def stretchHalf (dat mk1init : Nat) : Nat :=
  ((List.range 4).foldl
    (fun acc _ =>
      (u8 (acc.1 <<< 1), u8 (acc.2.1 <<< 2),
        if dat &&& acc.1 ≠ 0 then acc.2.2 ||| acc.2.1 else acc.2.2))
    (mk1init, 0x03, 0)).2.2

/-- The `fx0` byte of `OLED::lookup`: source bits 0-3 doubled. -/
def stretch0 (dat : Nat) : Nat := stretchHalf dat 0x01

/-- The `fx1` byte of `OLED::lookup`: source bits 4-7 doubled. -/
def stretch1 (dat : Nat) : Nat := stretchHalf dat 0x10

/-- `OLED::lookup`: read `FONT_W` font bytes at `(ch-32)*FONT_W` and fill
`fx0`/`fx1` with the stretched halves.  (`ch - 32` is int arithmetic in C;
`putch` only calls this with `32 ≤ ch ≤ 137`, so Nat subtraction agrees.) -/
def lookup (cfg : Cfg) (ch : Nat) (s : St) : St :=
  let base := (u8 ch - 32) * cfg.fontW
  { s with
    fx0 := fun i => if i < cfg.fontW then stretch0 (u8 (cfg.font (base + i))) else s.fx0 i
    fx1 := fun i => if i < cfg.fontW then stretch1 (u8 (cfg.font (base + i))) else s.fx1 i }

/-- `OLED::putch`: drop line-feeds and right-edge overflows
(`oledX > 128 - FONT_W`, written overflow-safely as
`128 < oledX + FONT_W`); clamp unsupported codes to the space glyph;
stream `fx1` then, after `setXY`, `fx0`; advance the logical column. -/
def putch (cfg : Cfg) (ch : Nat) (s : St) : St × List Ev :=
  let ch := u8 ch
  if ch = 10 ∨ 128 < s.oledX + cfg.fontW then (s, [])
  else
    let ch := if ch < 32 ∨ 137 < ch then 32 else ch
    let a := (List.range cfg.fontW).foldl
      (fun acc i => seq acc (fun s => senddata (s.fx1 i) s)) (lookup cfg ch s, [])
    let b := seq a (setXY a.1.oledX a.1.oledY)
    let c := (List.range cfg.fontW).foldl
      (fun acc i => seq acc (fun s => senddata (s.fx0 i) s)) b
    let s := { c.1 with m_col := u8 (c.1.m_col + 1) }
    seq (s, c.2) (setCursor cfg s.m_col s.m_row)

/-- `OLED::putstr`: `putch` every character up to the NUL terminator,
then `clr2eol`.  A C string is modelled as the byte list up to (not
including) its first zero byte. -/
def putstr (cfg : Cfg) (str : List Nat) (s : St) : St × List Ev :=
  seq ((str.takeWhile (· ≠ 0)).foldl (fun acc ch => seq acc (putch cfg ch)) (s, []))
    clr2eol

/-- The store sequence of the digit-conversion loop in `OLED::print32`:
`for (uint8_t i=9; val; i--)`, inserting a comma when `i` is 6 or 2, with
the `uint8_t` decrement modelled as `(i + 255) % 256`.  Each element is a
`(buffer index, byte stored)` pair in store order.  The fuel `val + 1`
always exceeds the number of iterations (one per decimal digit). -/
def p32go : Nat → Nat → Nat → List (Nat × Nat)
  | 0, _, _ => []
  | fuel + 1, val, i =>
    if val = 0 then []
    else if i = 6 ∨ i = 2 then
      (i, 44) :: ((i + 255) % 256, 48 + val % 10) ::
        p32go fuel (val / 10) ((i + 510) % 256)
    else
      (i, 48 + val % 10) :: p32go fuel (val / 10) ((i + 255) % 256)

/-- The stores performed by `OLED::print32`'s conversion loop on input
`val`, starting at index 9. -/
def p32stores (val : Nat) : List (Nat × Nat) := p32go (val + 1) val 9

/-- The initial `print32` buffer: `char tmp[15] = "               ";`
fifteen spaces filling the array exactly, with no NUL terminator inside
the array. -/
def p32init : List Nat := List.replicate 15 32

/-- The `tmp` buffer of `OLED::print32` after the conversion loop.
(A store at an index past 14 leaves the C array; `List.set` drops it.) -/
def p32buf (val : Nat) : List Nat :=
  (p32stores val).foldl (fun l ic => l.set ic.1 ic.2) p32init

/-- Digit capacity of the `print32` conversion loop when the index stands
at `i`: the number of decimal digits that can still be stored at indices
`i, i-1, …, 0`, accounting for the comma slots at indices 6 and 2. -/
def cap (i : Nat) : Nat :=
  i + 1 - ((if 2 ≤ i then 1 else 0) + (if 6 ≤ i then 1 else 0))

/-- The character sequence `putstr` consumes from `print32`'s buffer: the
bytes before the first zero byte.  (The real array holds no terminator,
so the walk leaves the array; the model stops at the array end.) -/
def p32text (val : Nat) : List Nat := (p32buf val).takeWhile (· ≠ 0)

/-- `OLED::print32`: build the comma-grouped buffer for the `uint32_t`
argument, position the cursor at `(0,1)`, and render via `putstr`. -/
def print32 (cfg : Cfg) (val : Nat) (s : St) : St × List Ev :=
  seq (setCursor cfg 0 1 s) (putstr cfg (p32buf (val % 4294967296)))

/-- Modelled from the spec: the display controller is external hardware.
Per the spec's bus/addressing description, a command `0xB0|page`,
`0x10|highNibble`, `lowNibble` latches the page and column pointers, a
data byte is stored at the current position and advances the column, and
a run of `n` zero bytes blanks `n` consecutive columns of the current
page. -/
structure Dev where
  page : Nat
  col : Nat
  mem : Nat → Nat → Nat

/-- Effect of one bus event on the modelled controller. -/
def devStep (d : Dev) : Ev → Dev
  | Ev.cmd bs =>
    match bs with
    | [b0, b1, b2] => { d with page := b0 &&& 0x0F, col := (b1 &&& 0x0F) * 16 + b2 }
    | _ => d
  | Ev.dat b =>
    { page := d.page, col := d.col + 1,
      mem := fun p c => if p = d.page ∧ c = d.col then b else d.mem p c }
  | Ev.zeros n =>
    { page := d.page, col := d.col + n,
      mem := fun p c => if p = d.page ∧ d.col ≤ c ∧ c < d.col + n then 0 else d.mem p c }

/-- Run a trace of bus events on the modelled controller. -/
def runDev (d : Dev) (es : List Ev) : Dev := es.foldl devStep d

/-- The cursor/addressing synchronization invariant relating a driver
state to the modelled controller: the controller's page and column
latches match `oledY`/`oledX` (as they do right after any `setPage`),
the pixel column is on screen, and the physical position is the one
`setCursor` derives from the stored logical position. -/
def Inv (cfg : Cfg) (s : St) (d : Dev) : Prop :=
  d.page = s.oledY ∧ d.col = s.oledX ∧ s.oledX ≤ 128 ∧
  s.oledX = s.m_col * cfg.fontW % 256 ∧
  s.oledY = ((s.m_row * cfg.fontH) &&& 0x06) ||| 0x01 ∧
  s.m_col < 256 ∧ s.m_row < 256

/-- Sample configuration for concrete evaluations: glyph width 6, two
pages per text row, every font byte `0x0F`. -/
def cfgA : Cfg := ⟨6, 2, fun _ => 0x0F⟩

/-- Sample driver state: cursor at the origin (as left by `setCursor 0 0`). -/
def stA : St := ⟨0, 0, 0, 1, fun _ => 0, fun _ => 0⟩

/-- Sample controller state matching `stA`, with every memory byte stale
(`0xFF`). -/
def devA : Dev := ⟨1, 0, fun _ _ => 255⟩

/-- The full bus trace emitted by `clrScreen`, written out: home the
cursor (page 1, column 0), blank it, blank pages 2 through 8, home
again. -/
def clrScreenDelta : List Ev :=
  [Ev.cmd [0xB1, 0x10, 0x00], Ev.zeros 128,
   Ev.cmd [0xB2, 0x10, 0x00], Ev.zeros 128,
   Ev.cmd [0xB3, 0x10, 0x00], Ev.zeros 128,
   Ev.cmd [0xB4, 0x10, 0x00], Ev.zeros 128,
   Ev.cmd [0xB5, 0x10, 0x00], Ev.zeros 128,
   Ev.cmd [0xB6, 0x10, 0x00], Ev.zeros 128,
   Ev.cmd [0xB7, 0x10, 0x00], Ev.zeros 128,
   Ev.cmd [0xB8, 0x10, 0x00], Ev.zeros 128,
   Ev.cmd [0xB1, 0x10, 0x00]]

/-! ### Helper lemmas -/

lemma runDev_append (d : Dev) (a b : List Ev) :
    runDev d (a ++ b) = runDev (runDev d a) b :=
  List.foldl_append _ _ _ _

lemma runDev_cons (d : Dev) (e : Ev) (es : List Ev) :
    runDev d (e :: es) = runDev (devStep d e) es := rfl

lemma runDev_nil (d : Dev) : runDev d [] = d := rfl

lemma pageNib : ∀ y < 16, (0xB0 ||| y) &&& 0x0F = y := by decide

lemma colNib : ∀ x < 256,
    ((0x10 ||| ((x &&& 0xF0) >>> 4)) &&& 0x0F) * 16 + (x &&& 0x0F) = x := by decide

lemma orOne_lt8 (x : Nat) : ((x &&& 6) ||| 1) < 8 := by
  have h6 : x &&& 6 < 8 := lt_of_le_of_lt (Nat.and_le_right) (by norm_num)
  calc ((x &&& 6) ||| 1) < 2 ^ 3 := Nat.or_lt_two_pow h6 (by norm_num)
    _ = 8 := by norm_num

lemma u8_lt (n : Nat) : u8 n < 256 := Nat.mod_lt _ (by norm_num)

lemma u8_eq_of_lt {n : Nat} (h : n < 256) : u8 n = n := Nat.mod_eq_of_lt h

lemma u8_u8 (n : Nat) : u8 (u8 n) = u8 n := u8_eq_of_lt (u8_lt n)

/-! ### Claim theorems -/

/-- C1: for every source glyph-column byte `b`, the stretcher doubles each
source bit `i` into output bits `2i mod 8` and `2i mod 8 + 1`: bits 0-3
land in the bottom byte `fx0` (`stretch0`), bits 4-7 in the top byte
`fx1` (`stretch1`); and `lookup` fills `fx0`/`fx1` with exactly these
stretched halves of the font bytes. -/
theorem stretch_doubling_exact :
    (∀ b < 256, ∀ i < 8,
      (i < 4 → ((stretch0 b).testBit (2 * i) = b.testBit i ∧
                (stretch0 b).testBit (2 * i + 1) = b.testBit i)) ∧
      (4 ≤ i → ((stretch1 b).testBit (2 * i % 8) = b.testBit i ∧
                (stretch1 b).testBit (2 * i % 8 + 1) = b.testBit i)))
    ∧ ∀ (cfg : Cfg) (ch : Nat) (s : St), ∀ j < cfg.fontW,
        (lookup cfg ch s).fx0 j =
          stretch0 (u8 (cfg.font ((u8 ch - 32) * cfg.fontW + j))) ∧
        (lookup cfg ch s).fx1 j =
          stretch1 (u8 (cfg.font ((u8 ch - 32) * cfg.fontW + j))) := by
  refine ⟨by decide, ?_⟩
  intro cfg ch s j hj
  simp [lookup, hj]

/-- Witness for C1 at `b = 0xA5`, `i = 2` and `i = 6`, and a concrete
`lookup` call. -/
theorem stretch_doubling_exact_witness :
    ((stretch0 0xA5).testBit 4 = (0xA5 : Nat).testBit 2 ∧
      (stretch0 0xA5).testBit 5 = (0xA5 : Nat).testBit 2) ∧
    ((stretch1 0xA5).testBit 4 = (0xA5 : Nat).testBit 6 ∧
      (stretch1 0xA5).testBit 5 = (0xA5 : Nat).testBit 6) ∧
    (lookup cfgA 65 stA).fx0 0 = stretch0 (u8 (cfgA.font ((u8 65 - 32) * cfgA.fontW + 0))) :=
  ⟨(stretch_doubling_exact.1 0xA5 (by decide) 2 (by decide)).1 (by decide),
   (stretch_doubling_exact.1 0xA5 (by decide) 6 (by decide)).2 (by decide),
   (stretch_doubling_exact.2 cfgA 65 stA 0 (by decide)).1⟩

/-- C2: for valid `col`/`row` (the glyph fits on screen and both fit in a
byte), `setCursor col row` leaves the cursor with
`pixelX = col*FONT_W`, `pixelPage = ((row*FONT_H) & 0x06) | 0x01`, stores
the logical position, and emits exactly one page-address command for that
position. -/
theorem setCursor_roundtrip (cfg : Cfg) (col row : Nat) (s : St)
    (hc : col < 256) (hr : row < 256)
    (hfit : col * cfg.fontW + cfg.fontW ≤ 128) :
    (setCursor cfg col row s).1.oledX = col * cfg.fontW ∧
    (setCursor cfg col row s).1.oledY = ((row * cfg.fontH) &&& 0x06) ||| 0x01 ∧
    (setCursor cfg col row s).1.m_col = col ∧
    (setCursor cfg col row s).1.m_row = row ∧
    (setCursor cfg col row s).2 =
      [Ev.cmd [0xB0 ||| (((row * cfg.fontH) &&& 0x06) ||| 0x01),
               0x10 ||| (((col * cfg.fontW) &&& 0xF0) >>> 4),
               (col * cfg.fontW) &&& 0x0F]] := by
  have hx : col * cfg.fontW < 256 := by omega
  have hy : ((row * cfg.fontH) &&& 0x06) ||| 0x01 < 256 :=
    lt_trans (orOne_lt8 _) (by norm_num)
  simp [setCursor, setPage, u8_eq_of_lt hc, u8_eq_of_lt hr, u8_eq_of_lt hx,
    u8_eq_of_lt hy]

/-- Witness for C2 at `col = 3`, `row = 2` in the sample configuration. -/
theorem setCursor_roundtrip_witness :
    (setCursor cfgA 3 2 stA).1.oledX = 3 * cfgA.fontW ∧
    (setCursor cfgA 3 2 stA).1.oledY = ((2 * cfgA.fontH) &&& 0x06) ||| 0x01 ∧
    (setCursor cfgA 3 2 stA).1.m_col = 3 ∧
    (setCursor cfgA 3 2 stA).1.m_row = 2 ∧
    (setCursor cfgA 3 2 stA).2 =
      [Ev.cmd [0xB0 ||| (((2 * cfgA.fontH) &&& 0x06) ||| 0x01),
               0x10 ||| (((3 * cfgA.fontW) &&& 0xF0) >>> 4),
               (3 * cfgA.fontW) &&& 0x0F]] :=
  setCursor_roundtrip cfgA 3 2 stA (by decide) (by decide) (by decide)

/-- C4: `putch` of a line-feed, and `putch` in any state whose pixel
column exceeds `128 - FONT_W`, performs zero bus writes and leaves the
entire driver state (cursor and glyph buffers) unchanged. -/
theorem putch_drop_noop (cfg : Cfg) (ch : Nat) (s : St)
    (h : u8 ch = 10 ∨ (cfg.fontW ≤ 128 ∧ 128 - cfg.fontW < s.oledX)) :
    putch cfg ch s = (s, []) := by
  have hg : u8 ch = 10 ∨ 128 < s.oledX + cfg.fontW := by
    rcases h with h | ⟨h1, h2⟩
    · exact Or.inl h
    · exact Or.inr (by omega)
  simp [putch, hg]

/-- Witness for C4: a line-feed at the origin, and an `'A'` at
`oledX = 124 > 128 - 6`. -/
theorem putch_drop_noop_witness :
    putch cfgA 10 stA = (stA, []) ∧
    putch cfgA 65 ⟨0, 0, 124, 1, fun _ => 0, fun _ => 0⟩ =
      (⟨0, 0, 124, 1, fun _ => 0, fun _ => 0⟩, []) :=
  ⟨putch_drop_noop cfgA 10 stA (Or.inl (by decide)),
   putch_drop_noop cfgA 65 _ (Or.inr (by constructor <;> decide))⟩

/-- C8: `setPage` emits exactly the 3-byte command sequence
`(0xB0|page)`, `(0x10|highNibble)`, `(lowNibble)` and nothing else, and
both `setCursor` and `setXY` reduce to a state update followed by
`setPage` — it is the only addressing primitive. -/
theorem setPage_cmd_bytes :
    (∀ (x y : Nat) (s : St), x < 256 → y < 256 →
      setPage x y s =
        (s, [Ev.cmd [0xB0 ||| y, 0x10 ||| ((x &&& 0xF0) >>> 4), x &&& 0x0F]]))
    ∧ (∀ (cfg : Cfg) (col row : Nat) (s : St),
        setCursor cfg col row s =
          setPage (u8 (u8 col * cfg.fontW)) (((u8 row * cfg.fontH) &&& 0x06) ||| 0x01)
            { s with m_row := u8 row, m_col := u8 col,
                     oledX := u8 (u8 col * cfg.fontW),
                     oledY := ((u8 row * cfg.fontH) &&& 0x06) ||| 0x01 })
    ∧ (∀ (col row : Nat) (s : St),
        setXY col row s =
          setPage (u8 col) (s.oledY &&& 0x06)
            { s with oledX := u8 col, oledY := s.oledY &&& 0x06 }) := by
  refine ⟨?_, fun cfg col row s => rfl, fun col row s => rfl⟩
  intro x y s hx hy
  simp [setPage, u8_eq_of_lt hx, u8_eq_of_lt hy]

/-- Witness for C8 at `x = 0x7A`, `y = 5`. -/
theorem setPage_cmd_bytes_witness :
    setPage 0x7A 5 stA =
      (stA, [Ev.cmd [0xB0 ||| 5, 0x10 ||| (((0x7A : Nat) &&& 0xF0) >>> 4),
        (0x7A : Nat) &&& 0x0F]]) :=
  setPage_cmd_bytes.1 0x7A 5 stA (by decide) (by decide)

/-- C9: `setXY` never reads its second argument: the result is the same
for any page argument, the stored page becomes the previous
`oledY & 0x06`, the emitted command addresses that masked page, the
masked page is never `oledY + 1`, and `clr2eol`'s middle command
therefore addresses page `oledY & 0x06`, not `oledY + 1`. -/
theorem setXY_ignores_row_arg :
    (∀ (x p q : Nat) (s : St), setXY x p s = setXY x q s)
    ∧ (∀ (x p : Nat) (s : St),
        (setXY x p s).1.oledY = s.oledY &&& 0x06 ∧
        (setXY x p s).1.oledX = u8 x ∧
        (setXY x p s).2 = [Ev.cmd [0xB0 ||| (s.oledY &&& 0x06),
          0x10 ||| ((u8 x &&& 0xF0) >>> 4), u8 x &&& 0x0F]])
    ∧ (∀ s : St, s.oledY < 256 → s.oledY &&& 0x06 ≠ u8 (s.oledY + 1))
    ∧ (∀ s : St, (clr2eol s).2 =
        [Ev.zeros (u8 (sub8 128 s.oledX)),
         Ev.cmd [0xB0 ||| (s.oledY &&& 0x06),
           0x10 ||| ((u8 s.oledX &&& 0xF0) >>> 4), u8 s.oledX &&& 0x0F],
         Ev.zeros (u8 (sub8 128 (u8 s.oledX)))]) := by
  refine ⟨fun x p q s => rfl, fun x p s => ⟨rfl, rfl, ?_⟩, ?_, fun s => ?_⟩
  · have hy : s.oledY &&& 0x06 < 256 :=
      lt_of_le_of_lt Nat.and_le_right (by norm_num)
    simp [setXY, setPage, u8_eq_of_lt hy, u8_u8]
  · intro s hy
    have : ∀ y < 256, y &&& 0x06 ≠ u8 (y + 1) := by decide
    exact this s.oledY hy
  · have hy : s.oledY &&& 0x06 < 256 :=
      lt_of_le_of_lt Nat.and_le_right (by norm_num)
    simp [clr2eol, seq, sendzeros, setXY, setPage, u8_eq_of_lt hy, u8_u8]

/-- Witness for C9: `setXY` at page arguments 3 and 77 from a state with
`oledY = 3`, and the non-aliasing fact at `oledY = 3`. -/
theorem setXY_ignores_row_arg_witness :
    setXY 40 3 ⟨0, 1, 40, 3, fun _ => 0, fun _ => 0⟩ =
      setXY 40 77 ⟨0, 1, 40, 3, fun _ => 0, fun _ => 0⟩ ∧
    (⟨0, 1, 40, 3, fun _ => 0, fun _ => 0⟩ : St).oledY &&& 0x06 ≠
      u8 ((⟨0, 1, 40, 3, fun _ => 0, fun _ => 0⟩ : St).oledY + 1) :=
  ⟨setXY_ignores_row_arg.1 40 3 77 _,
   setXY_ignores_row_arg.2.2.1 _ (by decide)⟩

/-- C5: from any state, `clrScreen` emits exactly `clrScreenDelta`: the
top row's first page (page 1) through the last physical page (page 7,
and additionally page 8) each receive a full-width run of 128 zero data
bytes, and the cursor is left at logical position `(0,0)`
(`m_col = m_row = 0`, `oledX = 0`, `oledY = 1`). -/
theorem clrScreen_zeroes_pages (cfg : Cfg) (s : St) :
    clrScreen cfg s =
      ({ s with m_col := 0, m_row := 0, oledX := 0, oledY := 1 }, clrScreenDelta)
    ∧ ∀ p < 8, 1 ≤ p →
        Ev.cmd [0xB0 ||| p, 0x10, 0x00] ∈ clrScreenDelta ∧
        Ev.zeros 128 ∈ clrScreenDelta := by
  constructor
  · simp only [clrScreen, setCursor, setPage, seq, sendzeros, u8, clrScreenDelta]
    norm_num [List.range_succ]
    decide
  · decide

/-- Witness for C5's bounded page clause at page 7. -/
theorem clrScreen_zeroes_pages_witness :
    Ev.cmd [0xB0 ||| 7, 0x10, 0x00] ∈ clrScreenDelta ∧
    Ev.zeros 128 ∈ clrScreenDelta :=
  (clrScreen_zeroes_pages cfgA stA).2 7 (by decide) (by decide)

/-- C3 (amended): for every character code outside the printable range
`[32,137]` other than the line-feed code 10, `putch` behaves exactly like
`putch` of the space character: same bus writes, same final state. -/
theorem putch_outside_range_space (cfg : Cfg) (ch : Nat) (s : St)
    (hb : ch < 256) (hout : ch < 32 ∨ 137 < ch) (hn : ch ≠ 10) :
    putch cfg ch s = putch cfg 32 s := by
  have hu : u8 ch = ch := u8_eq_of_lt hb
  have h32 : u8 32 = 32 := by decide
  by_cases hov : 128 < s.oledX + cfg.fontW
  · simp [putch, hu, h32, hov]
  · have hcl : (if ch < 32 ∨ 137 < ch then 32 else ch) = 32 := if_pos hout
    simp [putch, hu, h32, hov, hn, hcl]

/-- Counterexample to C3 as stated: the line-feed code 10 is outside the
printable range, yet `putch 10` is a silent no-op while `putch 32`
renders a glyph. -/
theorem putch_newline_not_space :
    putch cfgA 10 stA ≠ putch cfgA 32 stA := by
  intro h
  have h2 := congrArg (fun r => r.2.length) h
  revert h2
  decide

/-- Witness for C3's amended theorem at `ch = 200`. -/
theorem putch_outside_range_space_witness :
    putch cfgA 200 stA = putch cfgA 32 stA :=
  putch_outside_range_space cfgA 200 stA (by decide) (by decide) (by decide)

lemma p32go_zero (fuel i : Nat) : p32go fuel 0 i = [] := by
  cases fuel <;> simp [p32go]

/-- Index bound for the `print32` conversion loop: if the loop stands at
index `i ≤ 9` and the remaining value fits in the `cap i` digit slots
below `i`, every store index stays at most 9. -/
lemma p32go_bound : ∀ (fuel val i : Nat), i ≤ 9 → val < 10 ^ cap i →
    ∀ pr ∈ p32go fuel val i, pr.1 ≤ 9 := by
  intro fuel
  induction fuel with
  | zero => intro val i _ _ pr hpr; simp [p32go] at hpr
  | succ n ih =>
    intro val i hi hval pr hpr
    by_cases h0 : val = 0
    · subst h0; simp [p32go] at hpr
    · simp only [p32go, if_neg h0] at hpr
      by_cases hc : i = 6 ∨ i = 2
      · rw [if_pos hc] at hpr
        simp only [List.mem_cons] at hpr
        rcases hc with rfl | rfl
        · rcases hpr with rfl | rfl | hmem
          · norm_num
          · norm_num
          · have hv5 : val < 100000 := by simpa [cap] using hval
            have h4 : (6 + 510) % 256 = 4 := by norm_num
            rw [h4] at hmem
            refine ih (val / 10) 4 (by norm_num) ?_ pr hmem
            have : cap 4 = 4 := by decide
            rw [this]
            omega
        · rcases hpr with rfl | rfl | hmem
          · norm_num
          · norm_num
          · have hv2 : val < 100 := by simpa [cap] using hval
            have h0' : (2 + 510) % 256 = 0 := by norm_num
            rw [h0'] at hmem
            refine ih (val / 10) 0 (by norm_num) ?_ pr hmem
            have : cap 0 = 1 := by decide
            rw [this]
            omega
      · rw [if_neg hc] at hpr
        simp only [List.mem_cons] at hpr
        rcases hpr with rfl | hmem
        · simpa using hi
        · by_cases hv : val / 10 = 0
          · rw [hv, p32go_zero] at hmem
            simp at hmem
          · have hval10 : 10 ≤ val := by omega
            have hi1 : 1 ≤ i := by
              by_contra hcon
              have : i = 0 := by omega
              subst this
              have : cap 0 = 1 := by decide
              rw [this] at hval
              omega
            have hmod : (i + 255) % 256 = i - 1 := by omega
            rw [hmod] at hmem
            refine ih (val / 10) (i - 1) (by omega) ?_ pr hmem
            have hcap : cap i ≤ cap (i - 1) + 1 := by
              have hd : ∀ j < 10, 1 ≤ j → cap j ≤ cap (j - 1) + 1 := by decide
              exact hd i (by omega) hi1
            have hlt : val < 10 ^ (cap (i - 1) + 1) :=
              lt_of_lt_of_le hval (Nat.pow_le_pow_right (by norm_num) hcap)
            rw [pow_succ] at hlt
            omega

/-- C10: with `val < 10^8` every store of `print32`'s conversion loop
uses a buffer index within `[0,14]` (in fact within `[0,9]`); at
`val = 10^8` the `uint8_t` loop index wraps past zero and the loop
stores at index 255, outside the 15-byte buffer. -/
theorem print32_loop_index_bounds :
    (∀ val < 100000000, ∀ pr ∈ p32stores val, pr.1 ≤ 14)
    ∧ (255, 49) ∈ p32stores 100000000 ∧ 14 < 255 := by
  refine ⟨?_, by decide, by norm_num⟩
  intro val hv pr hpr
  simp only [p32stores] at hpr
  have hcap : cap 9 = 8 := by decide
  have h9 : pr.1 ≤ 9 := by
    refine p32go_bound (val + 1) val 9 (by norm_num) ?_ pr hpr
    rw [hcap]
    norm_num
    omega
  omega

/-- Witness for C10 at `val = 12`: the loop's first store `(9, 50)` is in
bounds. -/
theorem print32_loop_index_bounds_witness : (9, 50).1 ≤ 14 :=
  print32_loop_index_bounds.1 12 (by norm_num) (9, 50) (by decide)

/-- C6 (amended): `print32` positions the cursor at `(0,1)` and renders
its 15-byte buffer through `putstr`; for `val = 0` the conversion loop
never runs, so the buffer stays all blanks (there is no seeded `'0'`
digit and no left-justification); for `val = 1234567` the buffer is
`" 1,234,567"` — right-justified in a 10-character field with a leading
blank — followed by five blanks, with commas exactly at the digit-group
boundaries (buffer indices 2 and 6). -/
theorem print32_actual_text (cfg : Cfg) (val : Nat) (s : St) :
    print32 cfg val s = seq (setCursor cfg 0 1 s) (putstr cfg (p32buf (val % 4294967296)))
    ∧ p32buf 0 = List.replicate 15 32
    ∧ p32buf 1234567 = [32, 49, 44, 50, 51, 52, 44, 53, 54, 55, 32, 32, 32, 32, 32] :=
  ⟨rfl, by decide, by decide⟩

/-- Counterexample to C6 as stated: at `val = 0` the rendered character
sequence is fifteen blanks, not `"0"`; at `val = 1234567` it is
`" 1,234,567"` plus trailing blanks, not the bare `"1,234,567"`. -/
theorem print32_text_counterexample :
    p32text 0 ≠ [48] ∧
    p32text 1234567 ≠ [49, 44, 50, 51, 52, 44, 53, 54, 55] ∧
    p32text 0 = List.replicate 15 32 ∧
    p32text 1234567 = [32, 49, 44, 50, 51, 52, 44, 53, 54, 55, 32, 32, 32, 32, 32] := by
  refine ⟨by decide, by decide, by decide, by decide⟩

lemma foldl_seq_trace {α : Type} (f : α → St → St × List Ev) :
    ∀ (l : List α) (s : St) (t : List Ev),
      l.foldl (fun acc x => seq acc (f x)) (s, t) =
      ((l.foldl (fun acc x => seq acc (f x)) (s, [])).1,
        t ++ (l.foldl (fun acc x => seq acc (f x)) (s, [])).2) := by
  intro l
  induction l with
  | nil => intro s t; simp
  | cons c l ih =>
    intro s t
    simp only [List.foldl_cons]
    have h1 : seq (s, t) (f c) = ((f c s).1, t ++ (f c s).2) := rfl
    have h2 : seq (s, []) (f c) = ((f c s).1, (f c s).2) := rfl
    rw [h1, h2, ih ((f c s).1) (t ++ (f c s).2), ih ((f c s).1) ((f c s).2)]
    simp

lemma foldl_seq_senddata (g : St → Nat → Nat) :
    ∀ (n : Nat) (s : St) (t : List Ev),
      (List.range n).foldl (fun acc i => seq acc (fun s => senddata (g s i) s)) (s, t) =
        (s, t ++ (List.range n).map (fun i => Ev.dat (u8 (g s i)))) := by
  intro n
  induction n with
  | zero => intro s t; simp
  | succ n ih =>
    intro s t
    rw [List.range_succ, List.foldl_append, List.map_append, ih]
    simp [seq, senddata]

lemma fold_dat1 (n : Nat) (s : St) (t : List Ev) :
    (List.range n).foldl (fun acc i => seq acc (fun s => senddata (s.fx1 i) s)) (s, t) =
      (s, t ++ (List.range n).map (fun i => Ev.dat (u8 (s.fx1 i)))) :=
  foldl_seq_senddata (fun s i => s.fx1 i) n s t

lemma fold_dat0 (n : Nat) (s : St) (t : List Ev) :
    (List.range n).foldl (fun acc i => seq acc (fun s => senddata (s.fx0 i) s)) (s, t) =
      (s, t ++ (List.range n).map (fun i => Ev.dat (u8 (s.fx0 i)))) :=
  foldl_seq_senddata (fun s i => s.fx0 i) n s t

lemma seq_pair (s : St) (t : List Ev) (f : St → St × List Ev) :
    seq (s, t) f = ((f s).1, t ++ (f s).2) := rfl

lemma u8_and6 (x : Nat) : u8 (x &&& 6) = x &&& 6 :=
  u8_eq_of_lt (lt_of_le_of_lt Nat.and_le_right (by norm_num))

lemma u8_orOne (x : Nat) : u8 ((x &&& 6) ||| 1) = (x &&& 6) ||| 1 :=
  u8_eq_of_lt (lt_trans (orOne_lt8 x) (by norm_num))

/-- Explicit shape of `putch` in the rendering branch: the final state is
the glyph-buffer update plus the advanced cursor, and the trace is the
`fx1` run, the `setXY` command, the `fx0` run, and the final `setCursor`
command. -/
lemma putch_shape (cfg : Cfg) (ch : Nat) (s : St)
    (hg : ¬(u8 ch = 10 ∨ 128 < s.oledX + cfg.fontW)) :
    putch cfg ch s =
      ({ lookup cfg (if u8 ch < 32 ∨ 137 < u8 ch then 32 else u8 ch) s with
          m_col := u8 (s.m_col + 1),
          m_row := u8 s.m_row,
          oledX := u8 (u8 (s.m_col + 1) * cfg.fontW),
          oledY := ((u8 s.m_row * cfg.fontH) &&& 0x06) ||| 0x01 },
        (List.range cfg.fontW).map (fun i => Ev.dat (u8
          ((lookup cfg (if u8 ch < 32 ∨ 137 < u8 ch then 32 else u8 ch) s).fx1 i))) ++
        [Ev.cmd [0xB0 ||| (s.oledY &&& 0x06),
          0x10 ||| ((u8 s.oledX &&& 0xF0) >>> 4), u8 s.oledX &&& 0x0F]] ++
        (List.range cfg.fontW).map (fun i => Ev.dat (u8
          ((lookup cfg (if u8 ch < 32 ∨ 137 < u8 ch then 32 else u8 ch) s).fx0 i))) ++
        [Ev.cmd [0xB0 ||| (((u8 s.m_row * cfg.fontH) &&& 0x06) ||| 0x01),
          0x10 ||| ((u8 (u8 (s.m_col + 1) * cfg.fontW) &&& 0xF0) >>> 4),
          u8 (u8 (s.m_col + 1) * cfg.fontW) &&& 0x0F]]) := by
  simp only [putch, if_neg hg]
  rw [fold_dat1]
  simp only [seq_pair, List.nil_append, setXY, setPage]
  rw [fold_dat0]
  simp only [seq_pair, setCursor, setPage]
  simp [lookup, u8_u8, u8_and6, u8_orOne]

lemma runDev_one (d : Dev) (e : Ev) : runDev d [e] = devStep d e := rfl

/-- `putch` preserves the synchronization invariant and never changes the
logical row or the derived page. -/
lemma putch_inv (cfg : Cfg) (ch : Nat) (s : St) (d : Dev) (h : Inv cfg s d) :
    Inv cfg (putch cfg ch s).1 (runDev d (putch cfg ch s).2) ∧
    (putch cfg ch s).1.m_row = s.m_row ∧
    (putch cfg ch s).1.oledY = s.oledY := by
  obtain ⟨hp, hcol, hx, hxe, hye, hc256, hr256⟩ := h
  by_cases hg : u8 ch = 10 ∨ 128 < s.oledX + cfg.fontW
  · refine ⟨?_, ?_, ?_⟩ <;> simp only [putch, if_pos hg]
    exact ⟨hp, hcol, hx, hxe, hye, hc256, hr256⟩
  · have hov : s.oledX + cfg.fontW ≤ 128 := by
      have hg' := hg
      push_neg at hg'
      omega
    have hXeq : u8 (u8 (s.m_col + 1) * cfg.fontW) = s.oledX + cfg.fontW := by
      unfold u8
      rw [Nat.mod_mul_mod, add_one_mul, Nat.add_mod, ← hxe]
      omega
    have hY16 : ((u8 s.m_row * cfg.fontH) &&& 0x06) ||| 0x01 < 16 :=
      lt_trans (orOne_lt8 _) (by norm_num)
    rw [putch_shape cfg ch s hg]
    simp only [runDev_append, runDev_one, devStep]
    refine ⟨⟨?_, ?_, ?_, ?_, ?_, ?_, ?_⟩, ?_, ?_⟩
    · exact pageNib _ hY16
    · exact colNib _ (u8_lt _)
    · show u8 (u8 (s.m_col + 1) * cfg.fontW) ≤ 128
      rw [hXeq]; omega
    · rfl
    · rfl
    · exact u8_lt _
    · exact u8_lt _
    · exact u8_eq_of_lt hr256
    · show ((u8 s.m_row * cfg.fontH) &&& 0x06) ||| 0x01 = s.oledY
      rw [u8_eq_of_lt hr256, ← hye]

/-- The `putch` fold inside `putstr` preserves the synchronization
invariant, the logical row and the derived page. -/
lemma fold_putch_inv (cfg : Cfg) :
    ∀ (l : List Nat) (s : St) (d : Dev), Inv cfg s d →
      Inv cfg (l.foldl (fun acc ch => seq acc (putch cfg ch)) (s, [])).1
        (runDev d (l.foldl (fun acc ch => seq acc (putch cfg ch)) (s, [])).2) ∧
      (l.foldl (fun acc ch => seq acc (putch cfg ch)) (s, [])).1.m_row = s.m_row ∧
      (l.foldl (fun acc ch => seq acc (putch cfg ch)) (s, [])).1.oledY = s.oledY := by
  intro l
  induction l with
  | nil => intro s d h; exact ⟨h, rfl, rfl⟩
  | cons c l ih =>
    intro s d h
    simp only [List.foldl_cons]
    have h1 : seq (s, ([] : List Ev)) (putch cfg c) =
        ((putch cfg c s).1, (putch cfg c s).2) := rfl
    rw [h1, foldl_seq_trace (fun ch => putch cfg ch) l ((putch cfg c s).1)
      ((putch cfg c s).2)]
    obtain ⟨hInv1, hrow1, hy1⟩ := putch_inv cfg c s d h
    obtain ⟨hInv2, hrow2, hy2⟩ :=
      ih ((putch cfg c s).1) (runDev d (putch cfg c s).2) hInv1
    rw [runDev_append]
    exact ⟨hInv2, by rw [hrow2, hrow1], by rw [hy2, hy1]⟩

/-- From a synchronized state, `clr2eol` blanks every column from the
current pixel column to the right screen edge on both pages of the
current character row, and keeps `oledX`. -/
lemma clr2eol_mem (cfg : Cfg) (s : St) (d : Dev) (h : Inv cfg s d) :
    (∀ c, s.oledX ≤ c → c < 128 →
      (runDev d (clr2eol s).2).mem s.oledY c = 0 ∧
      (runDev d (clr2eol s).2).mem (s.oledY &&& 0x06) c = 0) ∧
    (clr2eol s).1.oledX = s.oledX := by
  obtain ⟨hp, hcol, hx, hxe, hye, hc256, hr256⟩ := h
  have hx256 : s.oledX < 256 := by omega
  have hn : u8 (sub8 128 s.oledX) = 128 - s.oledX := by
    unfold u8 sub8
    omega
  have htr : (clr2eol s).2 = [Ev.zeros (128 - s.oledX),
      Ev.cmd [0xB0 ||| (s.oledY &&& 0x06),
        0x10 ||| ((s.oledX &&& 0xF0) >>> 4), s.oledX &&& 0x0F],
      Ev.zeros (128 - s.oledX)] := by
    simp [clr2eol, seq, sendzeros, setXY, setPage, u8_eq_of_lt hx256, hn,
      u8_and6, u8_u8]
  have hst : (clr2eol s).1.oledX = s.oledX := by
    simp [clr2eol, seq, sendzeros, setXY, setPage, u8_eq_of_lt hx256]
  refine ⟨?_, hst⟩
  intro c hc1 hc2
  rw [htr]
  have hY6 : s.oledY &&& 0x06 < 16 :=
    lt_of_le_of_lt Nat.and_le_right (by norm_num)
  simp only [runDev, List.foldl_cons, List.foldl_nil, devStep]
  rw [hp, hcol, pageNib _ hY6, colNib _ hx256]
  by_cases heq : s.oledY &&& 0x06 = s.oledY
  · constructor <;> simp [heq] <;> omega
  · constructor
    · have hne : ¬(s.oledY = s.oledY &&& 0x06) := fun hcon => heq hcon.symm
      simp [hne]
      omega
    · simp
      omega

/-- C7: `putstr` writes each character of its argument via `putch` up to
the NUL terminator and then calls `clr2eol`; consequently, from any
synchronized cursor state — in particular right after a longer `putstr`
followed by `setCursor` back to the same start — every column from the
end of the rendered text to the right screen edge is zero on both pages
of the character row, so no residual pixels of any previous longer
string survive on that row. -/
theorem putstr_clr2eol_no_residual (cfg : Cfg) (str : List Nat) (s : St) (d : Dev)
    (h : Inv cfg s d) :
    putstr cfg str s =
      seq ((str.takeWhile (· ≠ 0)).foldl (fun acc ch => seq acc (putch cfg ch)) (s, []))
        clr2eol
    ∧ ∀ c, (putstr cfg str s).1.oledX ≤ c → c < 128 →
        (runDev d (putstr cfg str s).2).mem s.oledY c = 0 ∧
        (runDev d (putstr cfg str s).2).mem (s.oledY &&& 0x06) c = 0 := by
  refine ⟨rfl, ?_⟩
  obtain ⟨hInvF, hrowF, hyF⟩ := fold_putch_inv cfg (str.takeWhile (· ≠ 0)) s d h
  set F := (str.takeWhile (· ≠ 0)).foldl (fun acc ch => seq acc (putch cfg ch)) (s, [])
    with hF
  have hps : putstr cfg str s = ((clr2eol F.1).1, F.2 ++ (clr2eol F.1).2) := rfl
  obtain ⟨hmem, hX⟩ := clr2eol_mem cfg F.1 (runDev d F.2) hInvF
  intro c hc1 hc2
  rw [hps] at hc1 ⊢
  rw [runDev_append]
  rw [hX] at hc1
  have hres := hmem c hc1 hc2
  rw [hyF] at hres
  exact hres

/-- Witness for C7: rendering `"A"` from the origin over a controller
whose memory is entirely stale (`0xFF` everywhere) leaves column 127 of
both pages of row 0 blank. -/
theorem putstr_clr2eol_no_residual_witness :
    (runDev devA (putstr cfgA [65] stA).2).mem 1 127 = 0 ∧
    (runDev devA (putstr cfgA [65] stA).2).mem 0 127 = 0 := by
  have h := putstr_clr2eol_no_residual cfgA [65] stA devA
    (by refine ⟨rfl, rfl, ?_, ?_, ?_, ?_, ?_⟩ <;> decide)
  have h2 := h.2 127 (by decide) (by decide)
  exact ⟨h2.1, h2.2⟩

end TunaTinS
